import Mathlib

/-!
Verification of the transcript search / browse / ask frontend of the
epstein-transcript-explorer repository.

The embedding models, from `src/frontend/src/types.ts`, the data records;
from `src/frontend/next.config.ts` (the `SearchPage` component appended to it)
and `src/frontend/src/app/transcript/page.tsx` (`TranscriptContent`), the two
search pipelines (`SearchPage.results` and `TranscriptContent.filtered`) and
the `highlightText` helpers; and from `src/frontend/src/lib/api.ts` plus
`src/frontend/src/app/ask/page.tsx`, the `askQuestion` request helper and the
assistant-message construction of `handleSubmit`.

Times (seconds, JS numbers) are modelled as rationals; speaker ids as
integers; JS `toLowerCase` as `Char.toLower` per character (all texts of
interest are ASCII).  The Fuse.js library itself is not part of the
repository; its matching is modelled from the spec where noted below.
-/

/-- A sentence record, from `types.ts` (`text`, `start`, `end`). -/
structure Sentence where
  text : String
  start : ℚ
  «end» : ℚ
deriving DecidableEq

/-- A paragraph record, from `types.ts`: nullable speaker id, time span,
word count, full text and sentence list. -/
structure Paragraph where
  speaker : Option Int
  start : ℚ
  «end» : ℚ
  num_words : Nat
  text : String
  sentences : List Sentence
deriving DecidableEq

/-- An entity record, from `types.ts`. -/
structure Entity where
  label : String
  value : String
  confidence : ℚ
  start_word : Nat
  end_word : Nat
deriving DecidableEq

/-- The fields of `TranscriptData` (`types.ts`) that the search, browse and
filter logic reads. -/
structure TranscriptData where
  summary : String
  entities : List Entity
  speakers : List Int
  paragraphs : List Paragraph
deriving DecidableEq

/-- A search hit: a paragraph together with its original position, as built
by `data.paragraphs.map((p, i) => ({ ...p, index: i }))` on the search page
(the browse page names the field `_idx`; the semantics are identical). -/
structure SearchResult where
  paragraph : Paragraph
  index : Nat
deriving DecidableEq

/-- Character-wise lower-casing, the model of JS `String.prototype.toLowerCase`. -/
def toLowerChars (l : List Char) : List Char :=
  l.map Char.toLower

/-- Truthiness of `query.trim()` in the sources: the query contains at least
one non-whitespace character (equivalently, its trim is non-empty). -/
def hasQuery (q : String) : Bool :=
  q.data.any fun c => !c.isWhitespace

/-- Every contiguous substring of `t` (each one is a prefix of a suffix). -/
def infixes (t : List Char) : List (List Char) :=
  t.tails.flatMap List.inits

/-- Modelled from the spec: Fuse.js (an external library, not part of this
repository) is configured with `threshold: 0.3`; per the spec the threshold
allows "~30% character-level divergence", so a pattern of length `n` may be
matched with at most `⌊3·n/10⌋` elementary edits. -/
def fuseMaxErrors (pattern : List Char) : Nat :=
  3 * pattern.length / 10

/-- Modelled from the spec: the relevance score of a paragraph text for a
pattern, as the least number of elementary edits taking the pattern to some
contiguous substring of the text (`ignoreLocation`: a hit anywhere counts).
Smaller is better; `0` means the pattern occurs verbatim. -/
def fuseScore (pattern text : List Char) : Nat :=
  ((infixes text).map fun s => levenshtein Levenshtein.defaultCost pattern s).foldr
    min pattern.length

/-- Modelled from the spec: a text matches when its best substring lies
within the allowed edit budget of the pattern. -/
def fuseIsMatch (pattern text : List Char) : Bool :=
  fuseScore pattern text ≤ fuseMaxErrors pattern

/-- The indexed collection Fuse is built over:
`data.paragraphs.map((p, i) => ({ ...p, index: i }))`. -/
def fuseItems (ps : List Paragraph) : List SearchResult :=
  ps.enum.map fun x => ⟨x.2, x.1⟩

/-- The sort key Fuse orders results by: ascending score, ties by original
position. -/
def resKey (pattern : List Char) (r : SearchResult) : Nat × Nat :=
  (fuseScore pattern (toLowerChars r.paragraph.text.data), r.index)

/-- Lexicographic comparison of sort keys. -/
def keyLE (a b : Nat × Nat) : Prop :=
  a.1 < b.1 ∨ (a.1 = b.1 ∧ a.2 ≤ b.2)

instance : DecidableRel keyLE := fun a b => by
  unfold keyLE; infer_instance

/-- Result ordering used by the modelled Fuse search. -/
def resLE (pattern : List Char) (a b : SearchResult) : Prop :=
  keyLE (resKey pattern a) (resKey pattern b)

instance (pattern : List Char) : DecidableRel (resLE pattern) := fun a b => by
  unfold resLE; infer_instance

instance (pattern : List Char) : IsTotal SearchResult (resLE pattern) :=
  ⟨fun a b => by unfold resLE keyLE; omega⟩

instance (pattern : List Char) : IsTrans SearchResult (resLE pattern) :=
  ⟨fun a b c hab hbc => by unfold resLE keyLE at hab hbc ⊢; omega⟩

/-- Modelled from the spec: `fuse.search(query)` — the matching paragraphs
(lower-cased pattern against lower-cased text), ordered by ascending score
with ties in original paragraph order. -/
def fuseSearch (query : String) (ps : List Paragraph) : List SearchResult :=
  List.insertionSort (resLE (toLowerChars query.data))
    ((fuseItems ps).filter fun r =>
      fuseIsMatch (toLowerChars query.data) (toLowerChars r.paragraph.text.data))

/-- The text-matching stage shared by both pages:
`query.trim() && fuse ? fuse.search(query).map(...) : data.paragraphs.map((p, i) => ...)`. -/
def queryStage (t : TranscriptData) (q : String) : List SearchResult :=
  if hasQuery q then fuseSearch q t.paragraphs else fuseItems t.paragraphs

/-- The speaker filter of both pages:
`if (filterSpeaker !== null) matches = matches.filter(m => m.paragraph.speaker === filterSpeaker)`. -/
def speakerStage (filterSpeaker : Option Int) (l : List SearchResult) : List SearchResult :=
  match filterSpeaker with
  | none => l
  | some k => l.filter fun m => m.paragraph.speaker == some k

/-- The entity filter of both pages:
`if (filterEntity) matches = matches.filter(m => m.paragraph.text.toLowerCase().includes(filterEntity.toLowerCase()))`. -/
def entityStage (filterEntity : String) (l : List SearchResult) : List SearchResult :=
  if filterEntity = "" then l
  else l.filter fun m =>
    decide (toLowerChars filterEntity.data <:+: toLowerChars m.paragraph.text.data)

namespace SearchPage

/-- `SearchPage.results` (the search page, appended to `next.config.ts`):
text matching, then the speaker filter, then the entity filter, then
`matches.slice(0, 100)`. -/
def results (t : TranscriptData) (q : String) (filterSpeaker : Option Int)
    (filterEntity : String) : List SearchResult :=
  (entityStage filterEntity (speakerStage filterSpeaker (queryStage t q))).take 100

end SearchPage

namespace TranscriptContent

/-- `TranscriptContent.filtered` (`transcript/page.tsx`): the same pipeline
as the search page but with no `slice` — the full filtered list is returned. -/
def filtered (t : TranscriptData) (q : String) (filterSpeaker : Option Int)
    (filterEntity : String) : List SearchResult :=
  entityStage filterEntity (speakerStage filterSpeaker (queryStage t q))

end TranscriptContent

/-- The ordering both claims about result order reduce to: ascending modelled
score with ties in original order for a real text query, and original
paragraph order when the query is empty or whitespace. -/
def pageOrder (q : String) (a b : SearchResult) : Prop :=
  if hasQuery q then resLE (toLowerChars q.data) a b else a.index < b.index

instance (q : String) : DecidableRel (pageOrder q) := fun a b => by
  unfold pageOrder
  split <;> infer_instance

/-- Position of the first case-insensitive occurrence of `q` in `t`
(the leftmost match of the escaped, case-insensitive regex built from the
query in `highlightText`). -/
def findOcc (q : List Char) : List Char → Option Nat
  | [] => if q.isEmpty then some 0 else none
  | c :: rest =>
    if decide (toLowerChars q <+: toLowerChars (c :: rest)) then some 0
    else (findOcc q rest).map (· + 1)

/-- `text.split(regex)` with the capturing, global, case-insensitive regex of
`highlightText`, with each part tagged by whether it is a captured occurrence
(the parts the component wraps in `<mark>`; the stateful `regex.test` marks
exactly the captured parts).  `fuel` bounds the recursion; the callers pass
`text.length + 1`, which is always sufficient. -/
def splitParts (q : List Char) : Nat → List Char → List (List Char × Bool)
  | 0, t => [(t, false)]
  | fuel + 1, t =>
    match findOcc q t with
    | none => [(t, false)]
    | some i =>
      (t.take i, false) :: ((t.drop i).take q.length, true) ::
        splitParts q fuel (t.drop (i + q.length))

/-- `highlightText` (identical in both components): whole text unmarked when
the query trims to nothing, otherwise the split into unmarked gaps and marked
case-insensitive occurrences of the raw query as a literal substring. -/
def highlightText (query text : String) : List (String × Bool) :=
  if hasQuery query then
    (splitParts query.data (text.data.length + 1) text.data).map fun p =>
      (String.mk p.1, p.2)
  else [(text, false)]

/-- Concatenation of the rendered fragments, marked or not, in order. -/
def renderedText (l : List (String × Bool)) : String :=
  l.foldr (fun p acc => p.1 ++ acc) ""

/-- A cited source of an answer (`ask/page.tsx`). -/
structure Source where
  text : String
  speaker : Option Int
  start : ℚ
deriving DecidableEq

/-- The JSON body of a successful `/api/ask` response; `sources` may be
absent (`result.sources || []` in `handleSubmit`). -/
structure AskBody where
  answer : String
  sources : Option (List Source)
deriving DecidableEq

/-- Chat roles of `ask/page.tsx`. -/
inductive Role where
  | user
  | assistant
deriving DecidableEq

/-- A chat message as stored by `AskPage`; `sources` is `none` exactly when
the field is absent on the message object. -/
structure ChatMessage where
  role : Role
  content : String
  sources : Option (List Source)
deriving DecidableEq

/-- The outcome of `fetch` inside `askQuestion`: the promise rejects, or an
HTTP response arrives with an `ok` flag and a parsed body. -/
inductive FetchOutcome where
  | rejected
  | response (ok : Bool) (body : AskBody)

/-- `askQuestion` (`lib/api.ts`): a rejected fetch propagates the rejection;
`if (!res.ok) throw new Error("Failed to get answer")`; otherwise the parsed
body is returned. -/
def askQuestion : FetchOutcome → Except String AskBody
  | .rejected => .error "fetch rejected"
  | .response ok body => if ok then .ok body else .error "Failed to get answer"

/-- The fixed assistant message `handleSubmit` appends in its `catch` block:
the apology text, and no sources field. -/
def askErrorMessage : ChatMessage :=
  ⟨.assistant, "Sorry, I encountered an error processing your question. Please try again.",
    none⟩

/-- The assistant message `handleSubmit` appends: on success the answer with
`sources: result.sources || []`, on any thrown error the fixed error
message. -/
def assistantMessage : Except String AskBody → ChatMessage
  | .error _ => askErrorMessage
  | .ok r => ⟨.assistant, r.answer, some (r.sources.getD [])⟩

/-- A one-word paragraph used in concrete instances. -/
def cexPara : Paragraph :=
  ⟨some 0, 0, 1, 1, "hello", []⟩

/-- A transcript of 101 copies of `cexPara`: more paragraphs than the search
page's 100-result cap. -/
def cexData : TranscriptData :=
  ⟨"", [], [0], List.replicate 101 cexPara⟩

/-- A paragraph whose text contains "Ehud". -/
def ehudPara : Paragraph :=
  ⟨some 1, 0, 1, 1, "Ehud", []⟩

/-- A one-paragraph transcript for concrete search instances. -/
def smallData : TranscriptData :=
  ⟨"", [], [0], [cexPara]⟩

/-- The JSON body of a successful answer used in concrete instances. -/
def body0 : AskBody :=
  ⟨"The transcript does not say.", none⟩

theorem mem_infixes {s t : List Char} (h : s <:+: t) : s ∈ infixes t := by
  obtain ⟨a, b, rfl⟩ := h
  refine List.mem_flatMap.mpr ⟨s ++ b, ?_, ?_⟩
  · exact (List.mem_tails _ _).mpr ⟨a, (List.append_assoc a s b).symm⟩
  · exact (List.mem_inits _ _).mpr ⟨b, rfl⟩

theorem foldr_min_le {l : List Nat} {a : Nat} (init : Nat) (h : a ∈ l) :
    l.foldr min init ≤ a := by
  induction l with
  | nil => cases h
  | cons b bl ih =>
    rcases List.mem_cons.mp h with rfl | hm
    · exact min_le_left _ _
    · exact le_trans (min_le_right _ _) (ih hm)

theorem lt_foldr_min {l : List Nat} {k init : Nat} (h : ∀ a ∈ l, k < a) (hi : k < init) :
    k < l.foldr min init := by
  induction l with
  | nil => exact hi
  | cons b bl ih =>
    exact lt_min (h b (List.mem_cons_self b bl)) (ih fun a ha => h a (List.mem_cons_of_mem b ha))

theorem fuseScore_le_of_infix (pattern : List Char) {s t : List Char} (h : s <:+: t) :
    fuseScore pattern t ≤ levenshtein Levenshtein.defaultCost pattern s := by
  exact foldr_min_le _ (List.mem_map.mpr ⟨s, mem_infixes h, rfl⟩)

theorem mem_fuseItems_getElem {ps : List Paragraph} {r : SearchResult}
    (h : r ∈ fuseItems ps) : ps[r.index]? = some r.paragraph := by
  obtain ⟨x, hx, rfl⟩ := List.mem_map.mp h
  exact List.mem_enum_iff_getElem?.mp hx

theorem fuseItems_map_para (ps : List Paragraph) :
    (fuseItems ps).map (fun r => r.paragraph) = ps := by
  rw [fuseItems, List.map_map]
  exact List.enum_map_snd ps

theorem fuseItems_map_index (ps : List Paragraph) :
    (fuseItems ps).map (fun r => r.index) = List.range ps.length := by
  rw [fuseItems, List.map_map]
  exact List.enum_map_fst ps

theorem pairwise_index_fuseItems (ps : List Paragraph) :
    List.Pairwise (fun a b : SearchResult => a.index < b.index) (fuseItems ps) := by
  have h : List.Pairwise (· < ·) ((fuseItems ps).map (fun r => r.index)) := by
    rw [fuseItems_map_index]
    exact List.pairwise_lt_range ps.length
  exact List.pairwise_map.mp h

theorem speakerStage_sublist (fs : Option Int) (l : List SearchResult) :
    List.Sublist (speakerStage fs l) l := by
  cases fs with
  | none => exact List.Sublist.refl l
  | some k => exact List.filter_sublist l

theorem entityStage_sublist (fe : String) (l : List SearchResult) :
    List.Sublist (entityStage fe l) l := by
  unfold entityStage
  split
  · exact List.Sublist.refl l
  · exact List.filter_sublist l

theorem entityStage_mono {l₁ l₂ : List SearchResult} (fe : String)
    (h : List.Sublist l₁ l₂) : List.Sublist (entityStage fe l₁) (entityStage fe l₂) := by
  unfold entityStage
  split
  · exact h
  · exact h.filter _

theorem stages_sublist (fs : Option Int) (fe : String) (l : List SearchResult) :
    List.Sublist (entityStage fe (speakerStage fs l)) l :=
  (entityStage_sublist fe _).trans (speakerStage_sublist fs l)

theorem mem_of_speakerStage {fs : Option Int} {l : List SearchResult} {r : SearchResult}
    (h : r ∈ speakerStage fs l) : r ∈ l :=
  (speakerStage_sublist fs l).mem h

theorem mem_of_entityStage {fe : String} {l : List SearchResult} {r : SearchResult}
    (h : r ∈ entityStage fe l) : r ∈ l :=
  (entityStage_sublist fe l).mem h

theorem mem_queryStage {t : TranscriptData} {q : String} {r : SearchResult}
    (h : r ∈ queryStage t q) : r ∈ fuseItems t.paragraphs := by
  unfold queryStage at h
  split at h
  · unfold fuseSearch at h
    exact (List.mem_filter.mp ((List.mem_insertionSort _).mp h)).1
  · exact h

theorem queryStage_pairwise (t : TranscriptData) (q : String) :
    List.Pairwise (pageOrder q) (queryStage t q) := by
  by_cases hq : hasQuery q = true
  · have hs : List.Pairwise (resLE (toLowerChars q.data)) (queryStage t q) := by
      unfold queryStage
      rw [if_pos hq]
      exact List.sorted_insertionSort _ _
    exact hs.imp fun {a b} hab => by simpa [pageOrder, hq] using hab
  · have hs : List.Pairwise (fun a b : SearchResult => a.index < b.index) (queryStage t q) := by
      unfold queryStage
      rw [if_neg hq]
      exact pairwise_index_fuseItems t.paragraphs
    exact hs.imp fun {a b} hab => by simpa [pageOrder, hq] using hab

theorem findOcc_ciPrefix {q : List Char} :
    ∀ {t : List Char} {i : Nat}, findOcc q t = some i →
      toLowerChars q <+: toLowerChars (t.drop i) := by
  intro t
  induction t with
  | nil =>
    intro i h
    unfold findOcc at h
    split at h
    · cases h
      have hq : q = [] := by
        cases q with
        | nil => rfl
        | cons c cs => simp [List.isEmpty] at *
      simp [hq, toLowerChars]
    · cases h
  | cons c rest ih =>
    intro i h
    unfold findOcc at h
    split at h
    next hp =>
      cases h
      exact of_decide_eq_true hp
    next hp =>
      obtain ⟨j, hj, rfl⟩ := Option.map_eq_some'.mp h
      simpa using ih hj

theorem splitParts_marked {q : List Char} :
    ∀ (fuel : Nat) (t : List Char) (f : List Char),
      (f, true) ∈ splitParts q fuel t → toLowerChars f = toLowerChars q := by
  intro fuel
  induction fuel with
  | zero =>
    intro t f h
    simp [splitParts] at h
  | succ n ih =>
    intro t f h
    unfold splitParts at h
    split at h
    next => simp at h
    next i hocc =>
      rcases List.mem_cons.mp h with h1 | h2
      · cases h1
      · rcases List.mem_cons.mp h2 with h3 | h4
        · have hf : f = (t.drop i).take q.length := by
            injection h3 with e1 _
          subst hf
          have hp := findOcc_ciPrefix hocc
          obtain ⟨rest, hrest⟩ := hp
          have hlen : (toLowerChars q).length = q.length := by
            simp [toLowerChars]
          calc toLowerChars ((t.drop i).take q.length)
              = (toLowerChars (t.drop i)).take q.length := by
                simp [toLowerChars, List.map_take]
            _ = (toLowerChars q ++ rest).take q.length := by rw [hrest]
            _ = toLowerChars q := by
                rw [← hlen, List.take_left]
        · exact ih _ f h4

theorem splitParts_flatten {q : List Char} :
    ∀ (fuel : Nat) (t : List Char),
      ((splitParts q fuel t).map Prod.fst).flatten = t := by
  intro fuel
  induction fuel with
  | zero => intro t; simp [splitParts]
  | succ n ih =>
    intro t
    unfold splitParts
    split
    next => simp
    next i hocc =>
      simp only [List.map_cons, List.flatten_cons, ih]
      rw [← List.drop_drop, List.take_append_drop, List.take_append_drop]

theorem str_eq_of_data {a b : String} (h : a.data = b.data) : a = b := by
  cases a
  cases b
  exact congrArg String.mk h

theorem renderedText_data (L : List (String × Bool)) :
    (renderedText L).data = (L.map fun p => p.1.data).flatten := by
  induction L with
  | nil => simp [renderedText]
  | cons p rest ih =>
    simp [renderedText, String.data_append] at *
    exact ih

/-- C1 (amended): with an empty or whitespace-only query and no active
filters, both pipelines list all paragraphs in their original transcript
order; the search page truncates this listing to the first 100 entries,
while the transcript browse page returns the full uncapped list. -/
theorem C1_empty_query_listing (t : TranscriptData) (q : String)
    (hq : hasQuery q = false) :
    TranscriptContent.filtered t q none "" = fuseItems t.paragraphs ∧
    SearchPage.results t q none "" = (fuseItems t.paragraphs).take 100 ∧
    (fuseItems t.paragraphs).map (fun r => r.paragraph) = t.paragraphs := by
  have hstage : queryStage t q = fuseItems t.paragraphs := by
    unfold queryStage
    rw [if_neg (by simp [hq])]
  refine ⟨?_, ?_, fuseItems_map_para t.paragraphs⟩
  · show entityStage "" (speakerStage none (queryStage t q)) = fuseItems t.paragraphs
    rw [hstage]
    simp [entityStage, speakerStage]
  · show (entityStage "" (speakerStage none (queryStage t q))).take 100 = _
    rw [hstage]
    simp [entityStage, speakerStage]

/-- C1 counterexample: on a transcript of 101 paragraphs the transcript
browse page returns 101 results for the empty query with no filters — the
claimed 100-result cap fails in that implementation of the search. -/
theorem C1_counterexample :
    (TranscriptContent.filtered cexData "" none "").length = 101 ∧
    ¬ (TranscriptContent.filtered cexData "" none "").length ≤ 100 := by
  decide

/-- C1 witness: the amended statement evaluated at a whitespace-only query
on a concrete one-paragraph transcript. -/
theorem C1_witness :
    hasQuery " " = false ∧
    TranscriptContent.filtered smallData " " none "" = fuseItems smallData.paragraphs :=
  ⟨by decide, (C1_empty_query_listing smallData " " (by decide)).1⟩

/-- C5: filters only narrow.  For every transcript, query and filter
setting, applying the speaker filter (or the entity filter) never increases
the number of results, on the search page and on the browse page alike. -/
theorem C5_filters_narrow (t : TranscriptData) (q : String) (k : Int)
    (fs : Option Int) (fe e : String) :
    (SearchPage.results t q (some k) fe).length ≤
      (SearchPage.results t q none fe).length ∧
    (SearchPage.results t q fs e).length ≤
      (SearchPage.results t q fs "").length ∧
    (TranscriptContent.filtered t q (some k) fe).length ≤
      (TranscriptContent.filtered t q none fe).length ∧
    (TranscriptContent.filtered t q fs e).length ≤
      (TranscriptContent.filtered t q fs "").length := by
  have hsp : ∀ l : List SearchResult,
      List.Sublist (entityStage fe (speakerStage (some k) l))
        (entityStage fe (speakerStage none l)) := fun l =>
    entityStage_mono fe (List.filter_sublist l)
  have hen : ∀ l : List SearchResult,
      List.Sublist (entityStage e l) (entityStage "" l) := by
    intro l
    have h0 : entityStage "" l = l := by simp [entityStage]
    rw [h0]
    exact entityStage_sublist e l
  have htake : ∀ l₁ l₂ : List SearchResult, List.Sublist l₁ l₂ →
      (l₁.take 100).length ≤ (l₂.take 100).length := by
    intro l₁ l₂ h
    have hl := h.length_le
    simp only [List.length_take]
    omega
  exact ⟨htake _ _ (hsp _), htake _ _ (hen _), (hsp _).length_le, (hen _).length_le⟩

/-- C9: search is a pure read of the shared transcript.  In this embedding
every operation is a function of the transcript value, so the transcript is
unchanged by construction; the substantive content proved here is that every
returned result carries, unmodified, the paragraph record still found at its
original position in `t.paragraphs` — the index and result lists are built
over separate `SearchResult` copies and never alter or replace a paragraph. -/
theorem C9_results_reference_transcript (t : TranscriptData) (q : String)
    (fs : Option Int) (fe : String) :
    (∀ r ∈ SearchPage.results t q fs fe,
        t.paragraphs[r.index]? = some r.paragraph) ∧
    (∀ r ∈ TranscriptContent.filtered t q fs fe,
        t.paragraphs[r.index]? = some r.paragraph) := by
  constructor
  · intro r hr
    exact mem_fuseItems_getElem
      (mem_queryStage (mem_of_speakerStage (mem_of_entityStage (List.mem_of_mem_take hr))))
  · intro r hr
    exact mem_fuseItems_getElem
      (mem_queryStage (mem_of_speakerStage (mem_of_entityStage hr)))

/-- C9 witness: a concrete result of the browse page, shown to be the
untouched paragraph record at its original position. -/
theorem C9_witness :
    (⟨cexPara, 0⟩ : SearchResult) ∈ TranscriptContent.filtered smallData "" none "" ∧
    smallData.paragraphs[(0 : Nat)]? = some cexPara :=
  ⟨by decide,
    (C9_results_reference_transcript smallData "" none "").2 ⟨cexPara, 0⟩ (by decide)⟩

/-- C2: single-typo tolerance of the fuzzy match.  Any indexed paragraph
whose text contains "Ehud" is among the matches of `fuse.search("Ehdu")`
(the matching stage both pages feed into their filters): the lower-cased
text contains "ehu", which is one edit away from the pattern "ehdu", within
the 30% budget for a 4-character pattern. -/
theorem C2_typo_tolerant (ps : List Paragraph) (r : SearchResult)
    (hmem : r ∈ fuseItems ps) (hud : "Ehud".data <:+: r.paragraph.text.data) :
    r ∈ fuseSearch "Ehdu" ps := by
  have hiff : r ∈ fuseSearch "Ehdu" ps ↔ r ∈ (fuseItems ps).filter fun x =>
      fuseIsMatch (toLowerChars "Ehdu".data) (toLowerChars x.paragraph.text.data) := by
    unfold fuseSearch
    exact List.mem_insertionSort _
  rw [hiff]
  refine List.mem_filter.mpr ⟨hmem, ?_⟩
  have h1 : toLowerChars "Ehud".data <:+: toLowerChars r.paragraph.text.data := by
    unfold toLowerChars
    exact hud.map Char.toLower
  have h2 : "ehu".data <:+: toLowerChars "Ehud".data := by decide
  have h4 := fuseScore_le_of_infix (toLowerChars "Ehdu".data) (h2.trans h1)
  have h5 : levenshtein Levenshtein.defaultCost (toLowerChars "Ehdu".data) "ehu".data = 1 := by
    decide
  have h6 : fuseMaxErrors (toLowerChars "Ehdu".data) = 1 := by decide
  unfold fuseIsMatch
  rw [decide_eq_true_iff]
  omega

/-- C2 witness: the typo-tolerance theorem evaluated on a concrete
one-paragraph transcript whose text contains "Ehud". -/
theorem C2_witness :
    (⟨ehudPara, 0⟩ : SearchResult) ∈ fuseItems [ehudPara] ∧
    "Ehud".data <:+: ehudPara.text.data ∧
    (⟨ehudPara, 0⟩ : SearchResult) ∈ fuseSearch "Ehdu" [ehudPara] :=
  ⟨by decide, by decide,
    C2_typo_tolerant [ehudPara] ⟨ehudPara, 0⟩ (by decide) (by decide)⟩

/-- C3: a 10-character query rejected everywhere.  If every contiguous
substring of every (lower-cased) paragraph text is farther from the
(lower-cased) query than the edit budget — a formalisation of "does not
occur in and is not close to any paragraph text" — the search returns zero
results, on both pages and under every filter setting. -/
theorem C3_unrelated_query_empty (t : TranscriptData) (q : String)
    (fs : Option Int) (fe : String)
    (hlen : q.data.length = 10) (hq : hasQuery q = true)
    (hfar : ∀ p ∈ t.paragraphs, ∀ s ∈ infixes (toLowerChars p.text.data),
      fuseMaxErrors (toLowerChars q.data) <
        levenshtein Levenshtein.defaultCost (toLowerChars q.data) s) :
    TranscriptContent.filtered t q fs fe = [] ∧ SearchPage.results t q fs fe = [] := by
  have hpat : (toLowerChars q.data).length = 10 := by
    simp [toLowerChars, hlen]
  have hqs : queryStage t q = [] := by
    unfold queryStage
    rw [if_pos hq]
    unfold fuseSearch
    have hfilter : ((fuseItems t.paragraphs).filter fun x =>
        fuseIsMatch (toLowerChars q.data) (toLowerChars x.paragraph.text.data)) = [] := by
      rw [List.filter_eq_nil_iff]
      intro r hr
      have hp : r.paragraph ∈ t.paragraphs := by
        have hmp := List.mem_map_of_mem (fun x => x.paragraph) hr
        rwa [fuseItems_map_para] at hmp
      have hscore : fuseMaxErrors (toLowerChars q.data) <
          fuseScore (toLowerChars q.data) (toLowerChars r.paragraph.text.data) := by
        refine lt_foldr_min ?_ ?_
        · intro a ha
          obtain ⟨s, hs, rfl⟩ := List.mem_map.mp ha
          exact hfar r.paragraph hp s hs
        · rw [hpat]
          unfold fuseMaxErrors
          rw [hpat]
          omega
      unfold fuseIsMatch
      simp only [decide_eq_true_iff]
      omega
    rw [hfilter]
    rfl
  constructor
  · show entityStage fe (speakerStage fs (queryStage t q)) = []
    rw [hqs]
    cases fs with
    | none =>
      unfold speakerStage entityStage
      split <;> rfl
    | some k =>
      unfold speakerStage entityStage
      split <;> rfl
  · show (entityStage fe (speakerStage fs (queryStage t q))).take 100 = []
    rw [hqs]
    cases fs with
    | none =>
      unfold speakerStage entityStage
      split <;> rfl
    | some k =>
      unfold speakerStage entityStage
      split <;> rfl

/-- A 10-character string foreign to the concrete transcript. -/
def q10 : String := "qqqqqqqqqq"

/-- C3 witness: the rejection theorem evaluated on the concrete transcript
(paragraph text "hello") and the concrete query of ten q's. -/
theorem C3_witness :
    q10.data.length = 10 ∧ hasQuery q10 = true ∧
    (∀ p ∈ smallData.paragraphs, ∀ s ∈ infixes (toLowerChars p.text.data),
      fuseMaxErrors (toLowerChars q10.data) <
        levenshtein Levenshtein.defaultCost (toLowerChars q10.data) s) ∧
    TranscriptContent.filtered smallData q10 none "" = [] :=
  ⟨by decide, by decide, by decide,
    (C3_unrelated_query_empty smallData q10 none "" (by decide) (by decide) (by decide)).1⟩

/-- C4: order of results.  On both pages, for a real text query consecutive
results are ordered by ascending modelled score (descending relevance) with
equal scores kept in original paragraph order, and for an empty or
whitespace query the results are in original transcript order — the
`pageOrder` relation captures exactly this disjunction. -/
theorem C4_result_order (t : TranscriptData) (q : String) (fs : Option Int)
    (fe : String) :
    List.Pairwise (pageOrder q) (TranscriptContent.filtered t q fs fe) ∧
    List.Pairwise (pageOrder q) (SearchPage.results t q fs fe) := by
  have h := queryStage_pairwise t q
  have h1 : List.Pairwise (pageOrder q) (TranscriptContent.filtered t q fs fe) :=
    h.sublist (stages_sublist fs fe _)
  exact ⟨h1, h1.sublist (List.take_sublist _ _)⟩

/-- C6: filter semantics.  Membership in the browse page's filtered list is
exactly: passing the text-matching stage, AND (when a speaker is selected)
having that exact speaker id — so a `null` speaker never passes — AND (when
an entity is selected) containing the entity value as a case-insensitive
substring of the paragraph text; on the search page the same three
conditions are necessary for membership in the capped result list. -/
theorem C6_filter_semantics (t : TranscriptData) (q : String) (fs : Option Int)
    (fe : String) (m : SearchResult) :
    (m ∈ TranscriptContent.filtered t q fs fe ↔
      m ∈ queryStage t q ∧
      (∀ k, fs = some k → m.paragraph.speaker = some k) ∧
      (fe ≠ "" → toLowerChars fe.data <:+: toLowerChars m.paragraph.text.data)) ∧
    (m ∈ SearchPage.results t q fs fe →
      m ∈ queryStage t q ∧
      (∀ k, fs = some k → m.paragraph.speaker = some k) ∧
      (fe ≠ "" → toLowerChars fe.data <:+: toLowerChars m.paragraph.text.data)) := by
  have hspk : ∀ l : List SearchResult, m ∈ speakerStage fs l ↔
      m ∈ l ∧ (∀ k, fs = some k → m.paragraph.speaker = some k) := by
    intro l
    cases fs with
    | none => simp [speakerStage]
    | some k =>
      simp only [speakerStage, List.mem_filter, beq_iff_eq]
      constructor
      · rintro ⟨hm, hs⟩
        exact ⟨hm, fun k' hk' => by cases hk'; exact hs⟩
      · rintro ⟨hm, hs⟩
        exact ⟨hm, hs k rfl⟩
  have hent : ∀ l : List SearchResult, m ∈ entityStage fe l ↔
      m ∈ l ∧ (fe ≠ "" → toLowerChars fe.data <:+: toLowerChars m.paragraph.text.data) := by
    intro l
    unfold entityStage
    split
    next h => simp [h]
    next h =>
      simp only [List.mem_filter, decide_eq_true_iff]
      constructor
      · rintro ⟨hm, hs⟩
        exact ⟨hm, fun _ => hs⟩
      · rintro ⟨hm, hs⟩
        exact ⟨hm, hs h⟩
  have hmain : m ∈ TranscriptContent.filtered t q fs fe ↔
      m ∈ queryStage t q ∧
      (∀ k, fs = some k → m.paragraph.speaker = some k) ∧
      (fe ≠ "" → toLowerChars fe.data <:+: toLowerChars m.paragraph.text.data) := by
    show m ∈ entityStage fe (speakerStage fs (queryStage t q)) ↔ _
    rw [hent, hspk, and_assoc]
  exact ⟨hmain, fun hr => hmain.mp (List.mem_of_mem_take hr)⟩

/-- C6 witness: a concrete paragraph with speaker 0 passes the speaker
filter for speaker 0, evaluated through the characterisation. -/
theorem C6_witness :
    (⟨cexPara, 0⟩ : SearchResult) ∈ TranscriptContent.filtered smallData "" (some 0) "" :=
  ((C6_filter_semantics smallData "" (some 0) "" ⟨cexPara, 0⟩).1).mpr
    ⟨by decide, fun k hk => by cases hk; decide, fun h => absurd rfl h⟩

/-- C7: highlighting marks exactly the case-insensitive occurrences of the
raw query as a literal substring: every marked fragment is, up to case, the
query itself, and on the text "the quick fox" each of the queries "quick",
"Quick" and "QUICK" produces exactly the fragments "the " (unmarked),
"quick" (marked) and " fox" (unmarked) — nothing else is marked, and the
marking is independent of the fuzzy ranking. -/
theorem C7_highlight_marks :
    (∀ (q text f : String), (f, true) ∈ highlightText q text →
      toLowerChars f.data = toLowerChars q.data) ∧
    highlightText "quick" "the quick fox" =
      [("the ", false), ("quick", true), (" fox", false)] ∧
    highlightText "Quick" "the quick fox" =
      [("the ", false), ("quick", true), (" fox", false)] ∧
    highlightText "QUICK" "the quick fox" =
      [("the ", false), ("quick", true), (" fox", false)] := by
  refine ⟨?_, by decide, by decide, by decide⟩
  intro q text f h
  unfold highlightText at h
  split at h
  · obtain ⟨p, hp, hpe⟩ := List.mem_map.mp h
    obtain ⟨a, b⟩ := p
    rw [Prod.mk.injEq] at hpe
    obtain ⟨hf, hb⟩ := hpe
    subst hb
    have hm := splitParts_marked (q := q.data) (text.data.length + 1) text.data a hp
    rw [← hf]
    exact hm
  · simp at h

/-- C7 witness: the general marking lemma evaluated at the concrete text
"the quick fox" and query "quick". -/
theorem C7_witness :
    ("quick", true) ∈ highlightText "quick" "the quick fox" ∧
    toLowerChars "quick".data = toLowerChars "quick".data :=
  ⟨by decide, C7_highlight_marks.1 "quick" "the quick fox" "quick" (by decide)⟩

/-- C8: an `ask` failure is surfaced, not fabricated.  A rejected fetch and
a non-ok HTTP response both make `askQuestion` return an error; in both
cases `handleSubmit` shows the fixed apology message, which carries no
sources, while every successful answer message carries a `sources` field —
so a failure is always distinguishable from an "I don't know" answer. -/
theorem C8_ask_error_surfaced (b r : AskBody) :
    askQuestion .rejected = .error "fetch rejected" ∧
    askQuestion (.response false b) = .error "Failed to get answer" ∧
    assistantMessage (askQuestion (.response false b)) = askErrorMessage ∧
    assistantMessage (askQuestion .rejected) = askErrorMessage ∧
    askErrorMessage.sources = none ∧
    (assistantMessage (.ok r)).sources = some (r.sources.getD []) ∧
    assistantMessage (.ok r) ≠ askErrorMessage := by
  refine ⟨rfl, rfl, rfl, rfl, rfl, rfl, ?_⟩
  intro h
  have hs := congrArg ChatMessage.sources h
  simp [assistantMessage, askErrorMessage] at hs

/-- C8 witness: the error-surfacing theorem evaluated at a concrete body. -/
theorem C8_witness :
    askQuestion (.response false body0) = .error "Failed to get answer" ∧
    (assistantMessage (.ok body0)).sources = some (body0.sources.getD []) := by
  have h := C8_ask_error_surfaced body0 body0
  exact ⟨h.2.1, h.2.2.2.2.2.1⟩

/-- C10: highlighting preserves the text — concatenating the fragments
returned by `highlightText`, marked and unmarked in order, yields exactly
the original paragraph text, for every text and every query. -/
theorem C10_highlight_preserves (q text : String) :
    renderedText (highlightText q text) = text := by
  apply str_eq_of_data
  unfold highlightText
  split
  · rw [renderedText_data, List.map_map]
    exact splitParts_flatten (q := q.data) (text.data.length + 1) text.data
  · simp [renderedText, String.data_append]
